import Mathlib

/-
Verification of the session/authorization state machine and the
data-reconciliation algorithms of the erkc63 client (src/erkc63/client.py).

Machine floats produced by to_float / float(...) are modelled as exact
rationals (Rat): the verified properties only use equality and the
zero test on these values, never float rounding.  Dates produced by
date_attr / str_to_date are modelled as integers counting days, so that
the one-day step "end -= dt.timedelta(days=1)" is integer subtraction.
HTML/JSON parsing (parse_token, parse_accounts, date_attr, to_float,
data_attr, str_to_date, key.split) is an external collaborator of the
code under verification; rows are therefore modelled in already-parsed
form and parser outcomes appear as oracle parameters.
-/

namespace Erkc

/-! ## Insertion-ordered keys: model of python dict / set semantics

Python dicts preserve insertion order; dict.fromkeys(v) keeps the first
occurrence of each element of v, in order.  insKey is one key insertion,
dictFromKeys folds it over a list, exactly as dict.fromkeys does. -/

def insKey {α : Type} [DecidableEq α] (ks : List α) (x : α) : List α :=
  if x ∈ ks then ks else ks ++ [x]

def dictFromKeys {α : Type} [DecidableEq α] (l : List α) : List α :=
  l.foldl insKey []

theorem mem_foldl_insKey {α : Type} [DecidableEq α] :
    ∀ (l acc : List α) (y : α), y ∈ l.foldl insKey acc ↔ y ∈ acc ∨ y ∈ l := by
  intro l
  induction l with
  | nil => simp
  | cons x xs ih =>
    intro acc y
    simp only [List.foldl_cons, ih, insKey]
    by_cases hx : x ∈ acc
    · simp only [if_pos hx, List.mem_cons]
      constructor
      · rintro (h | h)
        · exact Or.inl h
        · exact Or.inr (Or.inr h)
      · rintro (h | h | h)
        · exact Or.inl h
        · exact Or.inl (h ▸ hx)
        · exact Or.inr h
    · simp only [if_neg hx, List.mem_append, List.mem_singleton, List.mem_cons]
      tauto

theorem nodup_foldl_insKey {α : Type} [DecidableEq α] :
    ∀ (l acc : List α), acc.Nodup → (l.foldl insKey acc).Nodup := by
  intro l
  induction l with
  | nil => intro acc h; simpa using h
  | cons x xs ih =>
    intro acc h
    simp only [List.foldl_cons]
    apply ih
    unfold insKey
    by_cases hx : x ∈ acc
    · simpa [hx] using h
    · simp only [if_neg hx]
      exact List.nodup_append.mpr ⟨h, List.nodup_singleton x, by simpa using hx⟩

theorem foldl_insKey_append {α : Type} [DecidableEq α] :
    ∀ (l acc : List α), ∃ t, l.foldl insKey acc = acc ++ t ∧ t.Sublist l := by
  intro l
  induction l with
  | nil => intro acc; exact ⟨[], by simp⟩
  | cons x xs ih =>
    intro acc
    simp only [List.foldl_cons]
    unfold insKey
    by_cases hx : x ∈ acc
    · obtain ⟨t, ht, hs⟩ := ih acc
      exact ⟨t, by simpa [hx] using ht, hs.cons x⟩
    · obtain ⟨t, ht, hs⟩ := ih (acc ++ [x])
      refine ⟨x :: t, ?_, hs.cons₂ x⟩
      simpa [hx, List.append_assoc] using ht

theorem mem_dictFromKeys {α : Type} [DecidableEq α] (l : List α) (y : α) :
    y ∈ dictFromKeys l ↔ y ∈ l := by
  simpa [dictFromKeys] using mem_foldl_insKey l [] y

theorem nodup_dictFromKeys {α : Type} [DecidableEq α] (l : List α) :
    (dictFromKeys l).Nodup :=
  nodup_foldl_insKey l [] List.nodup_nil

theorem sublist_dictFromKeys {α : Type} [DecidableEq α] (l : List α) :
    (dictFromKeys l).Sublist l := by
  obtain ⟨t, ht, hs⟩ := foldl_insKey_append l []
  simpa [dictFromKeys, ht]

theorem foldl_insKey_all_eq {α : Type} [DecidableEq α] :
    ∀ (l : List α) (d : α), (∀ x ∈ l, x = d) → l.foldl insKey [d] = [d] := by
  intro l
  induction l with
  | nil => intro d _; rfl
  | cons x xs ih =>
    intro d h
    have hx : x = d := h x (List.mem_cons_self x xs)
    simp only [List.foldl_cons, hx, insKey, List.mem_singleton, if_pos rfl]
    exact ih d fun y hy => h y (List.mem_cons_of_mem x hy)

theorem dictFromKeys_all_eq {α : Type} [DecidableEq α] (l : List α) (d : α)
    (hne : l ≠ []) (h : ∀ x ∈ l, x = d) : dictFromKeys l = [d] := by
  cases l with
  | nil => exact absurd rfl hne
  | cons x xs =>
    have hx : x = d := h x (List.mem_cons_self x xs)
    simp only [dictFromKeys, List.foldl_cons, insKey, List.not_mem_nil,
      if_neg (List.not_mem_nil x), List.nil_append, hx]
    exact foldl_insKey_all_eq xs d fun y hy => h y (List.mem_cons_of_mem x hy)

theorem getLast?_all_eq {α : Type} :
    ∀ (l : List α) (d : α), l ≠ [] → (∀ x ∈ l, x = d) → l.getLast? = some d := by
  intro l
  induction l with
  | nil => intro d h; exact absurd rfl h
  | cons x xs ih =>
    intro d _ h
    cases xs with
    | nil => simp [List.getLast?, h x (by simp)]
    | cons y ys =>
      rw [List.getLast?_cons_cons]
      exact ih d (by simp) fun z hz => h z (List.mem_cons_of_mem x hz)

/-! ## Data model

The record classes Accrual, MonthAccrual, MeterValue and MeterInfoHistory
live in modules of this repository (accrual.py, meters.py) that are not
part of the sources under verification; only client.py is. -/

/-- Modelled from the spec: MeterValue (meters.py is not among the sources):
"{date, reading value, consumption delta, source label}", with equality
defined over all fields of a reading. -/
structure MeterValue where
  date : Int
  value : Rat
  consumption : Rat
  source : String
deriving DecidableEq, Repr

/-- A parsed row of the countersHistory endpoint, as consumed by
meters_history: the six-tuple (_, key, date, value, consumption, source)
after str_to_date on the date substring, float() on value/consumption
and key.split(", счетчик №", 1) into name and serial. -/
structure MeterRow where
  name : String
  serial : String
  date : Int
  value : Rat
  consumption : Rat
  source : String
deriving DecidableEq, Repr

/-- Modelled from the spec: MeterInfoHistory (meters.py is not among the
sources): "(device name, serial number) with an ordered sequence of
distinct MeterValue". -/
structure MeterInfoHistory where
  name : String
  serial : String
  values : List MeterValue
deriving DecidableEq, Repr

/-- Modelled from the spec: Accrual (accrual.py is not among the sources):
a billing-period record with account, date, total charge, penalty and
optional document ids for the general bill and the penalty bill, both
absent when the record is first created. -/
structure Accrual where
  account : Nat
  date : Int
  summa : Rat
  peni : Rat
  bill_id : Option Nat := none
  peni_id : Option Nat := none
deriving DecidableEq, Repr

/-- Modelled from the spec: MonthAccrual (accrual.py is not among the
sources): one row per period whose first numeric component summa is the
total charge tested by "if not accrual.summa"; the remaining numeric
components are kept opaque. -/
structure MonthAccrual where
  account : Nat
  date : Int
  summa : Rat
  others : List Rat := []
deriving DecidableEq, Repr

/-- A parsed row of the getReceipts endpoint as consumed by year_accruals:
date_attr(data[0]), to_float(data[1]), to_float(data[2]), the raw
discriminator string data[3], and data_attr(data[5]). -/
structure YRow where
  date : Int
  summa : Rat
  peni : Rat
  tag : String
  docId : Nat
deriving DecidableEq, Repr

/-! ## accruals_history: stop at the first zero-total row -/

/-- The accumulation loop of ErkcClient.accruals_history: rows are
consumed in server order, each is parsed into a MonthAccrual, and the
loop breaks at the first row whose summa is (float) zero. -/
def accrualsHistoryRows {ρ : Type} (parse : ρ → MonthAccrual) : List ρ → List MonthAccrual
  | [] => []
  | r :: rest =>
    let a := parse r
    if a.summa = 0 then [] else a :: accrualsHistoryRows parse rest

theorem accrualsHistoryRows_nil {ρ : Type} (parse : ρ → MonthAccrual) :
    accrualsHistoryRows parse [] = [] := rfl

/-! ## Session state machine (ErkcClient plus the module-level semaphore)

ClientState embeds the mutable attributes of ErkcClient; World adds the
module-level _SEMAPHORE as a count of available permits (initially one).
An operation outcome is either a normal return, a raised exception, or a
forever-blocked await of Semaphore.acquire; in the first two cases the
mutations performed before returning or raising persist, so the outcome
carries the resulting World.  Network results and parser results are
oracle parameters: cookieValid stands for "the laravel_session cookie is
present and not yet expired at the time _check_session runs". -/

structure ClientState where
  cliClosed : Bool
  token : Option String
  accounts : Option (List Nat)
  login : Option String
  password : Option String
deriving DecidableEq, Repr

structure World where
  st : ClientState
  sem : Nat
deriving DecidableEq, Repr

inductive PyError where
  | authorizationError
  | parsingError
  | transportError
  | keyError
deriving DecidableEq, Repr

inductive Outcome where
  | ok : World → Outcome
  | err : PyError → World → Outcome
  | blocked : Outcome
deriving DecidableEq, Repr

def outWorld : Outcome → Option World
  | .ok w => some w
  | .err _ w => some w
  | .blocked => none

/-- ErkcClient.closed: the transport connector is closed. -/
def closedP (st : ClientState) : Bool := st.cliClosed

/-- ErkcClient.opened: not (self.closed or self._token is None). -/
def opened (st : ClientState) : Bool := !(closedP st || st.token.isNone)

/-- ErkcClient.authorized: not (self.closed or self._accounts is None). -/
def authorized (st : ClientState) : Bool := !(closedP st || st.accounts.isNone)

/-- ErkcClient._reset: clears token and accounts. -/
def resetSt (st : ClientState) : ClientState :=
  { st with token := none, accounts := none }

/-- ErkcClient._check_session: if the session cookie is absent or its
expiry time is not in the future, _reset() runs; otherwise nothing
happens.  cookieValid collapses the cookie-jar scan and the UTC expiry
comparison into one oracle bit. -/
def checkSession (cookieValid : Bool) (st : ClientState) : ClientState :=
  if cookieValid then st else resetSt st

/-- Result of parse_token / the login POST / parse_accounts for one
execution of ErkcClient.open: parsedToken is none when the GET of the
login page or parse_token raises, loginAccepted is false when the final
response URL equals the first URL of the redirect history (rejected
credentials), parsedAccounts is the parse_accounts result on success. -/
structure OpenOracle where
  parsedToken : Option String
  loginAccepted : Bool
  parsedAccounts : List Nat
deriving DecidableEq, Repr

/-- Credential resolution and the login POST of ErkcClient.open, i.e. the
code from "if not auth or self.authorized" to the end of the method. -/
def openAuthPhase (lg pw : Option String) (auth : Bool) (o : OpenOracle)
    (w : World) : Outcome :=
  if !auth || authorized w.st then .ok w
  else
    match lg.orElse (fun _ => w.st.login), pw.orElse (fun _ => w.st.password) with
    | some l, some p =>
      if o.loginAccepted then
        let st2 : ClientState :=
          { w.st with accounts := some o.parsedAccounts, login := some l, password := some p }
        .ok { w with st := st2 }
      else .err .authorizationError w
    | _, _ => .err .authorizationError w

/-- Body of ErkcClient.open.  When the session is not opened, the
semaphore is acquired first (a zero-permit gate blocks forever), then the
login page is fetched (raising on a closed transport) and the token is
parsed; note that no path of this method releases the semaphore. -/
def openRun (lg pw : Option String) (auth : Bool) (o : OpenOracle)
    (w : World) : Outcome :=
  if opened w.st then openAuthPhase lg pw auth o w
  else if w.sem = 0 then .blocked
  else if w.st.cliClosed then .err .transportError ⟨w.st, w.sem - 1⟩
  else
    match o.parsedToken with
    | none => .err .parsingError ⟨w.st, w.sem - 1⟩
    | some t =>
      openAuthPhase lg pw auth o
        ⟨⟨w.st.cliClosed, some t, w.st.accounts, w.st.login, w.st.password⟩, w.sem - 1⟩

/-- ErkcClient.open including the @api(check_only=True) wrapper, which
runs _check_session before the body. -/
def openStep (cookieValid : Bool) (lg pw : Option String) (auth : Bool)
    (o : OpenOracle) (w : World) : Outcome :=
  openRun lg pw auth o { w with st := checkSession cookieValid w.st }

/-- Body of ErkcClient.close.  The try block performs the logout GET and,
only when that GET returned, _reset(); the finally block closes the
transport when requested and releases the semaphore unconditionally, on
the normal path and on the exception path alike. -/
def closeRun (closeTransport logoutOk : Bool) (w : World) : Outcome :=
  if authorized w.st then
    if logoutOk then
      .ok { st := { (resetSt w.st) with
                    cliClosed := closeTransport || w.st.cliClosed },
            sem := w.sem + 1 }
    else
      .err .transportError
        { st := { w.st with cliClosed := closeTransport || w.st.cliClosed },
          sem := w.sem + 1 }
  else
    .ok { st := { w.st with cliClosed := closeTransport || w.st.cliClosed },
          sem := w.sem + 1 }

/-- ErkcClient.close including the @api(check_only=True) wrapper. -/
def closeStep (cookieValid closeTransport logoutOk : Bool) (w : World) : Outcome :=
  closeRun closeTransport logoutOk { w with st := checkSession cookieValid w.st }

/-- A fresh client as built by ErkcClient.__init__ together with the
one-permit module semaphore. -/
def initWorld (lg pw : Option String) : World :=
  ⟨⟨false, none, none, lg, pw⟩, 1⟩

/-! ## The api decorator guard -/

/-- Oracle bits consumed by one execution of the api._wrapper guard: the
wrapper itself runs _check_session once, and each nested call of the
decorated close / open runs it again with its own bit. -/
structure GuardOracle where
  cookieValid1 : Bool
  closeCookieValid : Bool
  closeLogoutOk : Bool
  openCookieValid : Bool
  openOracle : OpenOracle
  open2CookieValid : Bool
  open2Oracle : OpenOracle
deriving DecidableEq, Repr

/-- api._wrapper up to (not including) the wrapped body: _check_session;
early exit for check_only; for public operations force auth_required to
False and close the session keeping the transport; open if not opened
(authorizing only if required); open again with authorization when
required but not yet authorized.  The returned World is the state the
wrapped operation body runs in. -/
def apiGuard (checkOnly pub authRequired : Bool) (o : GuardOracle) (w : World) : Outcome :=
  let w := { w with st := checkSession o.cookieValid1 w.st }
  if checkOnly then .ok w
  else
    let authRequired := authRequired && !pub
    let afterClose : Outcome :=
      if pub then closeStep o.closeCookieValid false o.closeLogoutOk w
      else .ok w
    match afterClose with
    | .blocked => .blocked
    | .err e w2 => .err e w2
    | .ok w2 =>
      let afterOpen : Outcome :=
        if !(opened w2.st) then openStep o.openCookieValid none none authRequired o.openOracle w2
        else .ok w2
      match afterOpen with
      | .blocked => .blocked
      | .err e w3 => .err e w3
      | .ok w3 =>
        if authRequired && !(authorized w3.st) then
          openStep o.open2CookieValid none none true o.open2Oracle w3
        else .ok w3

/-! ## download_pdf -/

/-- The JSON object returned by the getReceipt AJAX call; file is none
when the object has no "file" key, in which case the subscript raises
KeyError. -/
structure ReceiptJson where
  file : Option String
deriving DecidableEq, Repr

/-- Network oracle for one execution of download_pdf: getReceipt is none
when the AJAX call (or the account resolution inside it) raises, and
download is none when the GET of the referenced file raises. -/
structure PdfOracle where
  getReceipt : Option ReceiptJson
  download : Option (List Nat)
deriving DecidableEq, Repr

/-- Body of ErkcClient.download_pdf (the bytes are modelled as a list).
Only the AJAX call is inside the try/except; the subscript json["file"]
and the GET of the referenced file run after the except block. -/
def download_pdf (accrual : Accrual) (peni : Bool) (o : PdfOracle) :
    Except PyError (List Nat) :=
  match (if peni then accrual.peni_id else accrual.bill_id) with
  | none => .ok []
  | some _ =>
    match o.getReceipt with
    | none => .ok []
    | some j =>
      match j.file with
      | none => .error .keyError
      | some _ =>
        match o.download with
        | none => .error .transportError
        | some bs => .ok bs

/-! ## Reachability of session states -/

/-- One completed session-management step: a standalone _check_session
(the guard runs it before every operation), or an open or close call that
ran to completion, normally or by raising. -/
inductive Step : World → World → Prop where
  | check : ∀ cv w, Step w ⟨checkSession cv w.st, w.sem⟩
  | openS : ∀ cv lg pw auth o w w2,
      outWorld (openStep cv lg pw auth o w) = some w2 → Step w w2
  | closeS : ∀ cv ct lo w w2,
      outWorld (closeStep cv ct lo w) = some w2 → Step w w2

/-- Worlds reachable from a freshly constructed client. -/
def Reachable (w : World) : Prop :=
  ∃ lg pw, Relation.ReflTransGen Step (initWorld lg pw) w

/-! ## meters_history -/

def mkMeterValue (r : MeterRow) : MeterValue :=
  ⟨r.date, r.value, r.consumption, r.source⟩

/-- db.setdefault((name, serial), []).append(value) on the insertion-
ordered dict of meters_history. -/
def addToKey (k : String × String) (v : MeterValue) :
    List ((String × String) × List MeterValue) → List ((String × String) × List MeterValue)
  | [] => [(k, [v])]
  | (k0, vs) :: rest =>
    if k0 = k then (k0, vs ++ [v]) :: rest else (k0, vs) :: addToKey k v rest

/-- Per-row accumulation of meters_history: rows whose consumption
parses to (float) zero are skipped, others are appended under their
device key. -/
def metersInsert (db : List ((String × String) × List MeterValue)) (r : MeterRow) :
    List ((String × String) × List MeterValue) :=
  if r.consumption = 0 then db else addToKey (r.name, r.serial) (mkMeterValue r) db

/-- Outcome of one iteration of the while loop of meters_history: either
break out with the accumulated db, or fetch again with a new end date. -/
inductive MStep where
  | done : List ((String × String) × List MeterValue) → MStep
  | next : Int → List ((String × String) × List MeterValue) → MStep
deriving DecidableEq, Repr

def MStep.isDone : MStep → Bool
  | .done _ => true
  | .next _ _ => false

/-- One iteration of the while loop of meters_history over a fetched
page.  The walrus assignment "end := str_to_date(...)" leaves end at the
date of the LAST row of the page (or unchanged for an empty page);
unique_dates collects the dates of all rows, including zero-consumption
ones; the loop breaks when the page has fewer than 25 rows, or when all
25 rows share one date and start equals the updated end; in the
remaining single-date case end steps back one day. -/
def metersIter (start endD : Int) (db : List ((String × String) × List MeterValue))
    (rows : List MeterRow) : MStep :=
  let endD2 := ((rows.map (fun r => r.date)).getLast?).getD endD
  let db2 := rows.foldl metersInsert db
  if rows.length < 25 then .done db2
  else if (dictFromKeys (rows.map (fun r => r.date))).length = 1 then
    if start = endD2 then .done db2
    else .next (endD2 - 1) db2
  else .next endD2 db2

/-- Final conversion of meters_history: duplicated readings from
overlapping pages are collapsed with dict.fromkeys, keeping first-seen
order. -/
def metersFinalize (db : List ((String × String) × List MeterValue)) :
    List MeterInfoHistory :=
  db.map (fun kv => ⟨kv.1.1, kv.1.2, dictFromKeys kv.2⟩)

/-- The while loop of meters_history, with explicit fuel: none means the
given number of iterations did not reach a break.  server start endD is
the page returned by the countersHistory endpoint for that window. -/
def metersLoop (server : Int → Int → List MeterRow) :
    Nat → Int → Int → List ((String × String) × List MeterValue) →
    Option (List MeterInfoHistory)
  | 0, _, _, _ => none
  | fuel + 1, start, endD, db =>
    match metersIter start endD db (server start endD) with
    | .done db2 => some (metersFinalize db2)
    | .next e db2 => metersLoop server fuel start e db2

/-! ## year_accruals -/

/-- Lookup in the insertion-ordered date-to-Accrual dict. -/
def lookupD (db : List (Int × Accrual)) (d : Int) : Option Accrual :=
  match db with
  | [] => none
  | (k, a) :: rest => if k = d then some a else lookupD rest d

/-- In-place mutation of the record stored under a date. -/
def updateD (db : List (Int × Accrual)) (d : Int) (f : Accrual → Accrual) :
    List (Int × Accrual) :=
  db.map (fun kv => if kv.1 = d then (kv.1, f kv.2) else kv)

/-- db.setdefault(date, Accrual(...)): keeps the existing record,
otherwise appends the new one at the end (insertion order). -/
def setdefaultD (db : List (Int × Accrual)) (d : Int) (a : Accrual) :
    List (Int × Accrual) :=
  if (lookupD db d).isSome then db else db ++ [(d, a)]

/-- The record created at the first occurrence of a date:
Accrual(account=account, date=date, summa=to_float(data[1]),
peni=to_float(data[2])), document ids absent. -/
def initAccrual (account : Nat) (r : YRow) : Accrual :=
  { account := account, date := r.date, summa := r.summa, peni := r.peni }

/-- Effect of the match on the discriminator for a row whose tag is one
of the two recognized values (identity otherwise; the loop itself raises
before this would matter). -/
def applyRow (a : Accrual) (r : YRow) : Accrual :=
  if r.tag = "общая" then { a with bill_id := some r.docId }
  else if r.tag = "пени" then { a with peni_id := some r.docId }
  else a

/-- The break condition "limit and limit == len(db) and date not in db":
a falsy limit (None or 0) never breaks; otherwise the loop breaks when
the number of distinct dates equals the limit and the date is new. -/
def brkCond : Option Nat → List (Int × Accrual) → Int → Bool
  | none, _, _ => false
  | some l, db, d => l != 0 && l == db.length && (lookupD db d).isNone

theorem brkCond_none (db : List (Int × Accrual)) (d : Int) :
    brkCond none db d = false := rfl

theorem brkCond_some (l : Nat) (db : List (Int × Accrual)) (d : Int) :
    brkCond (some l) db d =
      (l != 0 && l == db.length && (lookupD db d).isNone) := rfl

/-- The row loop of ErkcClient.year_accruals.  The error value models
ParsingError raised on an unrecognized discriminator. -/
def yearLoop (account : Nat) (limit : Option Nat) :
    List (Int × Accrual) → List YRow → Except Unit (List (Int × Accrual))
  | db, [] => .ok db
  | db, r :: rest =>
    if brkCond limit db r.date then .ok db
    else
      let db2 := setdefaultD db r.date (initAccrual account r)
      if r.tag = "общая" then
        yearLoop account limit (updateD db2 r.date (fun a => { a with bill_id := some r.docId })) rest
      else if r.tag = "пени" then
        yearLoop account limit (updateD db2 r.date (fun a => { a with peni_id := some r.docId })) rest
      else .error ()

/-- ErkcClient.year_accruals on parsed response rows: runs the row loop
and returns tuple(db.values()). -/
def year_accruals (account : Nat) (limit : Option Nat) (rows : List YRow) :
    Except Unit (List Accrual) :=
  (yearLoop account limit [] rows).map (fun db => db.map Prod.snd)

def exceptIsOk {ε α : Type} : Except ε α → Bool
  | .ok _ => true
  | .error _ => false

/-! # Claims -/

/-! ## C3: download_pdf error containment -/

def C3accrual : Accrual :=
  { account := 1, date := 0, summa := 100, peni := 0, bill_id := some 5 }

/-- getReceipt succeeds and references a file, but the GET of that file
raises. -/
def C3oracleFileGetRaises : PdfOracle := ⟨some ⟨some "f"⟩, none⟩

/-- The getReceipt AJAX call itself raises. -/
def C3oracleAjaxRaises : PdfOracle := ⟨none, none⟩

/-- C3: the claim (and the docstring of download_pdf, which promises
empty data on failure) says every failure in the download path yields
empty bytes with no exception propagating.  The code only wraps the
getReceipt AJAX call in try/except: a missing document id and a failing
getReceipt do yield empty bytes, but when the download of the referenced
file raises, the exception propagates to the caller, contradicting the
docstring. -/
theorem download_pdf_propagates_file_error :
    download_pdf C3accrual false C3oracleFileGetRaises = .error .transportError ∧
    download_pdf C3accrual false C3oracleAjaxRaises = .ok [] ∧
    download_pdf { C3accrual with bill_id := none } false C3oracleFileGetRaises = .ok [] :=
  ⟨rfl, rfl, rfl⟩

/-! ## C8: accruals_history stops at the first zero-total row -/

theorem accrualsHistoryRows_append_zero {ρ : Type} (parse : ρ → MonthAccrual) :
    ∀ (p : List ρ) (z : ρ) (q : List ρ),
      (∀ r ∈ p, (parse r).summa ≠ 0) → (parse z).summa = 0 →
      accrualsHistoryRows parse (p ++ z :: q) = p.map parse := by
  intro p
  induction p with
  | nil =>
    intro z q _ hz
    simp [accrualsHistoryRows, hz]
  | cons r p2 ih =>
    intro z q hp hz
    have hr : (parse r).summa ≠ 0 := hp r (by simp)
    simp only [List.cons_append, accrualsHistoryRows, if_neg hr, List.map_cons]
    exact congrArg (List.cons (parse r))
      (ih z q (fun x hx => hp x (List.mem_cons_of_mem r hx)) hz)

theorem accrualsHistoryRows_all_nonzero {ρ : Type} (parse : ρ → MonthAccrual) :
    ∀ (rows : List ρ), (∀ r ∈ rows, (parse r).summa ≠ 0) →
      accrualsHistoryRows parse rows = rows.map parse := by
  intro rows
  induction rows with
  | nil => intro _; rfl
  | cons r rest ih =>
    intro h
    have hr : (parse r).summa ≠ 0 := h r (by simp)
    simp only [accrualsHistoryRows, if_neg hr, List.map_cons]
    rw [ih fun x hx => h x (List.mem_cons_of_mem r hx)]

/-- C8: accruals_history consumes rows in server order and its result is
exactly the prefix of rows strictly before the first row whose total
charge parses to zero; the zero row and everything after it are
excluded.  When no row has a zero total, every row is kept in order. -/
theorem accruals_history_zero_cut {ρ : Type} (parse : ρ → MonthAccrual) (rows : List ρ) :
    (∀ (p : List ρ) (z : ρ) (q : List ρ), rows = p ++ z :: q →
        (∀ r ∈ p, (parse r).summa ≠ 0) → (parse z).summa = 0 →
        accrualsHistoryRows parse rows = p.map parse) ∧
    ((∀ r ∈ rows, (parse r).summa ≠ 0) →
        accrualsHistoryRows parse rows = rows.map parse) := by
  constructor
  · intro p z q hsplit hp hz
    rw [hsplit]
    exact accrualsHistoryRows_append_zero parse p z q hp hz
  · exact accrualsHistoryRows_all_nonzero parse rows

def C8jan : MonthAccrual := { account := 7, date := 202401, summa := 500 }
def C8feb : MonthAccrual := { account := 7, date := 202402, summa := 0 }
def C8mar : MonthAccrual := { account := 7, date := 202403, summa := 300 }

/-- C8 witness: the example of the spec, rows [2024-01: 500, 2024-02: 0,
2024-03: 300], yields only the January record. -/
theorem accruals_history_zero_cut_witness :
    accrualsHistoryRows id [C8jan, C8feb, C8mar] = [C8jan] :=
  (accruals_history_zero_cut id [C8jan, C8feb, C8mar]).1 [C8jan] C8feb [C8mar] rfl
    (by
      intro r hr
      simp only [List.mem_singleton] at hr
      subst hr
      simp [C8jan, id])
    (by simp [C8feb, id])

/-! ## C7: meters_history deduplication -/

/-- C7: in the result of meters_history, the reading list of each
(device name, serial number) key is the accumulated list with readings
identical in all fields collapsed to their first occurrence: the result
list has no duplicates, is a sublist of the accumulated list (so the
first-seen order is preserved), and keeps exactly the accumulated
elements. -/
theorem meters_dedup_first_seen (db : List ((String × String) × List MeterValue))
    (kv : (String × String) × List MeterValue) (h : kv ∈ db) :
    (⟨kv.1.1, kv.1.2, dictFromKeys kv.2⟩ : MeterInfoHistory) ∈ metersFinalize db ∧
    (dictFromKeys kv.2).Nodup ∧
    (dictFromKeys kv.2).Sublist kv.2 ∧
    (∀ x, x ∈ dictFromKeys kv.2 ↔ x ∈ kv.2) :=
  ⟨List.mem_map_of_mem _ h, nodup_dictFromKeys _, sublist_dictFromKeys _,
   fun x => mem_dictFromKeys _ x⟩

def mv1 : MeterValue := ⟨0, 1, 1, "a"⟩
def mv2 : MeterValue := ⟨1, 2, 1, "b"⟩

/-- C7 witness: a device with accumulated readings [mv1, mv2, mv1]. -/
theorem meters_dedup_first_seen_witness :
    (⟨"dev", "s1", dictFromKeys [mv1, mv2, mv1]⟩ : MeterInfoHistory) ∈
      metersFinalize [(("dev", "s1"), [mv1, mv2, mv1])] ∧
    (dictFromKeys [mv1, mv2, mv1]).Nodup ∧
    (dictFromKeys [mv1, mv2, mv1]).Sublist [mv1, mv2, mv1] ∧
    (∀ x, x ∈ dictFromKeys [mv1, mv2, mv1] ↔ x ∈ [mv1, mv2, mv1]) :=
  meters_dedup_first_seen [(("dev", "s1"), [mv1, mv2, mv1])]
    (("dev", "s1"), [mv1, mv2, mv1]) (by simp)

/-! ## C6: meters_history pagination termination -/

/-- C6: the pagination loop of meters_history ends in the two situations
named by the spec: a page with fewer than 25 rows breaks out of the
loop, and a full page of 25 rows all sharing the single date start (so
that the updated end equals start) also breaks instead of refetching. -/
theorem meters_pagination_terminates (server : Int → Int → List MeterRow)
    (start endD : Int) (db : List ((String × String) × List MeterValue)) :
    ((server start endD).length < 25 →
      ∃ res, metersLoop server 1 start endD db = some res) ∧
    ((server start endD).length = 25 →
      (∀ r ∈ server start endD, r.date = start) →
      ∃ res, metersLoop server 1 start endD db = some res) := by
  constructor
  · intro h
    refine ⟨metersFinalize ((server start endD).foldl metersInsert db), ?_⟩
    simp [metersLoop, metersIter, h]
  · intro h25 hall
    have hne : server start endD ≠ [] := by
      intro hnil
      rw [hnil] at h25
      simp at h25
    have hmapne : (server start endD).map (fun r => r.date) ≠ [] := by
      simpa using hne
    have hall2 : ∀ x ∈ (server start endD).map (fun r => r.date), x = start := by
      intro x hx
      obtain ⟨r, hr, rfl⟩ := List.mem_map.mp hx
      exact hall r hr
    have hlast : ((server start endD).map (fun r => r.date)).getLast? = some start :=
      getLast?_all_eq _ _ hmapne hall2
    have hdict : dictFromKeys ((server start endD).map (fun r => r.date)) = [start] :=
      dictFromKeys_all_eq _ _ hmapne hall2
    refine ⟨metersFinalize ((server start endD).foldl metersInsert db), ?_⟩
    simp [metersLoop, metersIter, h25, hlast, hdict]

def srvEmpty : Int → Int → List MeterRow := fun _ _ => []

def mrow0 : MeterRow := ⟨"dev", "s1", 0, 10, 1, "web"⟩

def srvFull : Int → Int → List MeterRow := fun _ _ => List.replicate 25 mrow0

/-- C6 witness: a server returning an empty page, and a server returning
25 rows all dated start with start = end. -/
theorem meters_pagination_terminates_witness :
    (∃ res, metersLoop srvEmpty 1 0 5 [] = some res) ∧
    (∃ res, metersLoop srvFull 1 0 0 [] = some res) :=
  ⟨(meters_pagination_terminates srvEmpty 0 5 []).1 (by simp [srvEmpty]),
   (meters_pagination_terminates srvFull 0 0 []).2 (by simp [srvFull])
     (by
       intro r hr
       simp only [srvFull, List.mem_replicate] at hr
       rw [hr.2]
       rfl)⟩

/-! ## C1: close() and session reset -/

def C1world : World := ⟨⟨false, some "T", some [1], some "u", some "p"⟩, 0⟩

/-- C1 counterexample: an authorized session whose logout GET raises.
close(close_transport=False) propagates the exception and the session
state is NOT reset: token and accounts are unchanged afterwards, because
self._reset() sits inside the try block after the logout GET, not in the
finally block.  Only the transport close and the semaphore release are
in the guaranteed-cleanup path. -/
theorem close_no_reset_on_logout_failure :
    closeStep true false false C1world =
      .err .transportError ⟨⟨false, some "T", some [1], some "u", some "p"⟩, 1⟩ := rfl

/-- C1 amended: for an authorized session, close() resets the session
state only when the logout GET returns; when it raises, the exception
propagates with token and accounts unchanged.  In both cases the finally
block still closes the transport when requested and releases the
AdmissionGate permit. -/
theorem close_reset_behavior (w : World) (cv ct lo : Bool)
    (h : authorized (checkSession cv w.st) = true) :
    (lo = true → ∃ w2, closeStep cv ct lo w = .ok w2 ∧
        w2.st.token = none ∧ w2.st.accounts = none ∧ w2.sem = w.sem + 1 ∧
        w2.st.cliClosed = (ct || (checkSession cv w.st).cliClosed)) ∧
    (lo = false → ∃ w2, closeStep cv ct lo w = .err .transportError w2 ∧
        w2.st.token = (checkSession cv w.st).token ∧
        w2.st.accounts = (checkSession cv w.st).accounts ∧
        w2.sem = w.sem + 1 ∧
        w2.st.cliClosed = (ct || (checkSession cv w.st).cliClosed)) := by
  constructor
  · rintro rfl
    unfold closeStep closeRun
    rw [if_pos h]
    exact ⟨_, rfl, rfl, rfl, rfl, rfl⟩
  · rintro rfl
    unfold closeStep closeRun
    rw [if_pos h]
    exact ⟨_, rfl, rfl, rfl, rfl, rfl⟩

/-- C1 witness: the amended theorem at a concrete authorized session. -/
theorem close_reset_behavior_witness :
    (∃ w2, closeStep true true true C1world = .ok w2 ∧
        w2.st.token = none ∧ w2.st.accounts = none ∧ w2.sem = C1world.sem + 1 ∧
        w2.st.cliClosed = (true || (checkSession true C1world.st).cliClosed)) ∧
    (∃ w2, closeStep true false false C1world = .err .transportError w2 ∧
        w2.st.token = (checkSession true C1world.st).token ∧
        w2.st.accounts = (checkSession true C1world.st).accounts ∧
        w2.sem = C1world.sem + 1 ∧
        w2.st.cliClosed = (false || (checkSession true C1world.st).cliClosed)) :=
  ⟨(close_reset_behavior C1world true true true rfl).1 rfl,
   (close_reset_behavior C1world true false false rfl).2 rfl⟩

/-! ## C2: AdmissionGate permits -/

/-- Every exit path of close() releases exactly one permit. -/
theorem closeStep_sem (w : World) (cv ct lo : Bool) :
    ∃ w2, outWorld (closeStep cv ct lo w) = some w2 ∧ w2.sem = w.sem + 1 := by
  unfold closeStep closeRun outWorld
  by_cases h : authorized (checkSession cv w.st) = true
  · cases lo <;> simp [h]
  · simp [h]

theorem openAuthPhase_out (lg pw : Option String) (auth : Bool) (o : OpenOracle)
    (w : World) :
    ∃ w2, outWorld (openAuthPhase lg pw auth o w) = some w2 ∧
      w2.sem = w.sem ∧ w2.st.cliClosed = w.st.cliClosed ∧ w2.st.token = w.st.token := by
  unfold openAuthPhase
  split
  · exact ⟨w, rfl, rfl, rfl, rfl⟩
  · split
    · split
      · exact ⟨_, rfl, rfl, rfl, rfl⟩
      · exact ⟨w, rfl, rfl, rfl, rfl⟩
    · exact ⟨w, rfl, rfl, rfl, rfl⟩

/-- An open() on an already-opened session acquires nothing. -/
theorem openStep_opened_sem (w : World) (cv : Bool) (lg pw : Option String)
    (auth : Bool) (o : OpenOracle) (h : opened (checkSession cv w.st) = true) :
    ∃ w2, outWorld (openStep cv lg pw auth o w) = some w2 ∧ w2.sem = w.sem := by
  unfold openStep openRun
  rw [if_pos]
  · obtain ⟨w2, hout, hsem, _, _⟩ :=
      openAuthPhase_out lg pw auth o { w with st := checkSession cv w.st }
    exact ⟨w2, hout, hsem⟩
  · exact h

/-- An open() from the initial session state acquires the single permit
and, on every outcome, holds it; the following close() restores it. -/
theorem openStep_init_sem (lg0 pw0 lg pw : Option String) (cv auth : Bool)
    (o : OpenOracle) :
    ∃ w1, outWorld (openStep cv lg pw auth o (initWorld lg0 pw0)) = some w1 ∧
      w1.sem = 0 := by
  have hcs : checkSession cv (initWorld lg0 pw0).st = (initWorld lg0 pw0).st := by
    cases cv <;> rfl
  unfold openStep
  rw [hcs]
  rcases o with ⟨pt, acc, pacc⟩
  cases pt with
  | none => exact ⟨_, rfl, rfl⟩
  | some t =>
    obtain ⟨w2, hout, hsem, _, _⟩ :=
      openAuthPhase_out lg pw auth ⟨some t, acc, pacc⟩
        ⟨⟨false, some t, none, lg0, pw0⟩, 0⟩
    exact ⟨w2, hout, hsem⟩

/-- C2 amended: close() releases exactly one permit on every exit path,
unconditionally; open() acquires no permit when the session is already
opened; and from the initial state, any open() - succeeding or failing
with missing credentials, a token-parsing error or rejected login -
leaves the single permit taken, and a subsequent close() restores it to
one.  The balance therefore holds across open/close pairs; it does NOT
hold for an open retried after a token-parsing failure without an
intervening close (see the counterexample). -/
theorem gate_release_balance :
    (∀ (w : World) (cv ct lo : Bool),
        ∃ w2, outWorld (closeStep cv ct lo w) = some w2 ∧ w2.sem = w.sem + 1) ∧
    (∀ (w : World) (cv : Bool) (lg pw : Option String) (auth : Bool) (o : OpenOracle),
        opened (checkSession cv w.st) = true →
        ∃ w2, outWorld (openStep cv lg pw auth o w) = some w2 ∧ w2.sem = w.sem) ∧
    (∀ (lg0 pw0 lg pw : Option String) (cv auth : Bool) (o : OpenOracle)
        (cv2 ct lo : Bool),
        ∃ w1 w2, outWorld (openStep cv lg pw auth o (initWorld lg0 pw0)) = some w1 ∧
          w1.sem = 0 ∧
          outWorld (closeStep cv2 ct lo w1) = some w2 ∧ w2.sem = 1) := by
  refine ⟨closeStep_sem, openStep_opened_sem, ?_⟩
  intro lg0 pw0 lg pw cv auth o cv2 ct lo
  obtain ⟨w1, hout1, hsem1⟩ := openStep_init_sem lg0 pw0 lg pw cv auth o
  obtain ⟨w2, hout2, hsem2⟩ := closeStep_sem w1 cv2 ct lo
  exact ⟨w1, w2, hout1, hsem1, hout2, by rw [hsem2, hsem1]⟩

def C2badOracle : OpenOracle := ⟨none, true, []⟩

def C2okOracle : OpenOracle := ⟨some "NEW", true, [5]⟩

def C2heldWorld : World := ⟨⟨false, none, none, none, none⟩, 0⟩

/-- C2 counterexample: on the token-parsing-failure exit path of open()
the acquired permit is not released - the session stays closed (token
none) while the gate is empty, and a subsequent open() blocks forever on
Semaphore.acquire.  So not every permit acquired during open() is
matched by a release on that exit path; only a later close() can release
it. -/
theorem gate_blocked_after_parse_failure :
    openStep true none none false C2badOracle (initWorld none none) =
      .err .parsingError C2heldWorld ∧
    opened C2heldWorld.st = false ∧
    openStep true none none false C2okOracle C2heldWorld = .blocked :=
  ⟨rfl, rfl, rfl⟩

def C2openedWorld : World := ⟨⟨false, some "T", none, none, none⟩, 3⟩

/-- C2 witness: the amended theorem at concrete inputs. -/
theorem gate_release_balance_witness :
    (∃ w2, outWorld (closeStep true true true (initWorld none none)) = some w2 ∧
        w2.sem = (initWorld none none).sem + 1) ∧
    (∃ w2, outWorld (openStep true none none false C2okOracle C2openedWorld) = some w2 ∧
        w2.sem = C2openedWorld.sem) ∧
    (∃ w1 w2,
        outWorld (openStep true none none false C2badOracle (initWorld none none)) = some w1 ∧
        w1.sem = 0 ∧
        outWorld (closeStep true true true w1) = some w2 ∧ w2.sem = 1) :=
  ⟨gate_release_balance.1 (initWorld none none) true true true,
   gate_release_balance.2.1 C2openedWorld true none none false C2okOracle rfl,
   gate_release_balance.2.2 none none none none true false C2badOracle true true true⟩

/-! ## C4: the public-operation guard -/

def benignOpenOracle : OpenOracle := ⟨some "NEW", true, [5]⟩

def benignGuardOracle : GuardOracle :=
  ⟨true, true, true, true, benignOpenOracle, true, benignOpenOracle⟩

def C4unauthWorld : World := ⟨⟨false, some "T", none, none, none⟩, 0⟩

/-- C4 counterexample: a public operation invoked while the session is
opened but not authorized.  The pre-emptive close() resets nothing
(close only resets authorized sessions), the session still counts as
opened, so no open() runs: the body executes on the OLD token "T", not
on a freshly obtained anonymous token, even though the oracle would have
supplied the fresh token "NEW".  The close also releases a gate permit
that open never re-acquires. -/
theorem public_guard_reuses_unauthorized_session :
    apiGuard false true true benignGuardOracle C4unauthWorld =
      .ok ⟨⟨false, some "T", none, none, none⟩, 1⟩ ∧
    benignGuardOracle.openOracle.parsedToken = some "NEW" := ⟨rfl, rfl⟩

/-- C4 amended: for a public operation the guard forces requireAuth off
and closes the session without releasing the transport, but a fresh
anonymous session is only opened when the session is closed afterwards:
from a closed session and from an authorized session whose logout
succeeds, the body runs on a new token from the login page with no
accounts bound; from an opened-but-unauthorized session the guard
reuses the existing token unchanged (and still releases one gate
permit). -/
theorem public_guard_behavior (o : GuardOracle) (w : World) (t : String)
    (hcv : o.cookieValid1 = true) (hccv : o.closeCookieValid = true)
    (hocv : o.openCookieValid = true) (hpt : o.openOracle.parsedToken = some t) :
    (w.st.cliClosed = false → w.st.token = none → w.st.accounts = none →
      apiGuard false true true o w =
        .ok ⟨⟨false, some t, none, w.st.login, w.st.password⟩, w.sem⟩) ∧
    (w.st.cliClosed = false → w.st.accounts.isSome = true → o.closeLogoutOk = true →
      apiGuard false true true o w =
        .ok ⟨⟨false, some t, none, w.st.login, w.st.password⟩, w.sem⟩) ∧
    (w.st.cliClosed = false → w.st.token.isSome = true → w.st.accounts = none →
      apiGuard false true true o w = .ok ⟨w.st, w.sem + 1⟩) := by
  rcases o with ⟨cv1, ccv, clo, ocv, ⟨pt, lacc, pacc⟩, o2cv, o2⟩
  simp only at hcv hccv hocv hpt
  subst hcv hccv hocv hpt
  rcases w with ⟨⟨cc, tk, ac, lgn, pwd⟩, sem⟩
  simp only
  refine ⟨?_, ?_, ?_⟩
  · intro h1 h2 h3
    subst h1 h2 h3
    simp [apiGuard, closeStep, closeRun, checkSession, openStep, openRun,
      openAuthPhase, opened, authorized, closedP, resetSt, Nat.succ_ne_zero]
  · intro h1 h2 h3
    subst h1 h3
    cases ac with
    | none => simp at h2
    | some accs =>
      simp [apiGuard, closeStep, closeRun, checkSession, openStep, openRun,
        openAuthPhase, opened, authorized, closedP, resetSt, Nat.succ_ne_zero]
  · intro h1 h2 h3
    subst h1 h3
    cases tk with
    | none => simp at h2
    | some tkv =>
      simp [apiGuard, closeStep, closeRun, checkSession, openStep, openRun,
        openAuthPhase, opened, authorized, closedP, resetSt]

def C4closedWorld : World := ⟨⟨false, none, none, some "u", some "p"⟩, 4⟩

def C4authWorld : World := ⟨⟨false, some "X", some [1], some "u", some "p"⟩, 4⟩

/-- C4 witness: the amended theorem at a closed session, an authorized
session with a successful logout, and an opened-unauthorized session. -/
theorem public_guard_behavior_witness :
    apiGuard false true true benignGuardOracle C4closedWorld =
      .ok ⟨⟨false, some "NEW", none, some "u", some "p"⟩, 4⟩ ∧
    apiGuard false true true benignGuardOracle C4authWorld =
      .ok ⟨⟨false, some "NEW", none, some "u", some "p"⟩, 4⟩ ∧
    apiGuard false true true benignGuardOracle C4unauthWorld =
      .ok ⟨C4unauthWorld.st, C4unauthWorld.sem + 1⟩ :=
  ⟨(public_guard_behavior benignGuardOracle C4closedWorld "NEW" rfl rfl rfl rfl).1
      rfl rfl rfl,
   (public_guard_behavior benignGuardOracle C4authWorld "NEW" rfl rfl rfl rfl).2.1
      rfl rfl rfl,
   (public_guard_behavior benignGuardOracle C4unauthWorld "NEW" rfl rfl rfl rfl).2.2
      rfl rfl rfl⟩

/-! ## C5: session-state invariant -/

/-- The reachable half of the claimed invariant: bound accounts present
implies token present. -/
def InvTA (w : World) : Prop :=
  w.st.accounts.isSome = true → w.st.token.isSome = true

theorem checkSession_InvTA (cv : Bool) (st : ClientState)
    (hi : st.accounts.isSome = true → st.token.isSome = true) :
    (checkSession cv st).accounts.isSome = true →
      (checkSession cv st).token.isSome = true := by
  cases cv with
  | false => intro h; simp [checkSession, resetSt] at h
  | true => exact hi

theorem openRun_InvTA (lg pw : Option String) (auth : Bool) (o : OpenOracle)
    (w : World) (hi : InvTA w) :
    ∀ w2, outWorld (openRun lg pw auth o w) = some w2 → InvTA w2 := by
  intro w2 h
  unfold openRun at h
  by_cases hop : opened w.st = true
  · -- the session is already opened: the token is some and openAuthPhase keeps it
    rw [if_pos hop] at h
    have htok : w.st.token.isSome = true := by
      cases htk : w.st.token with
      | none => rw [opened, closedP, htk] at hop; simp at hop
      | some t => rfl
    obtain ⟨w3, hout, _, _, htokeq⟩ := openAuthPhase_out lg pw auth o w
    rw [h] at hout
    have hw : w2 = w3 := by
      injection hout
    intro _
    rw [hw, htokeq]
    exact htok
  · rw [if_neg hop] at h
    by_cases hsem : w.sem = 0
    · rw [if_pos hsem] at h
      simp [outWorld] at h
    · rw [if_neg hsem] at h
      by_cases hcc : w.st.cliClosed = true
      · -- closed transport raises after the acquire; state unchanged
        rw [if_pos hcc] at h
        simp only [outWorld, Option.some.injEq] at h
        subst h
        exact hi
      · rw [if_neg hcc] at h
        cases hpt : o.parsedToken with
        | none =>
          -- parse_token raised; state unchanged
          rw [hpt] at h
          simp only [outWorld, Option.some.injEq] at h
          subst h
          exact hi
        | some t =>
          -- token parsed: the token is now some and openAuthPhase keeps it
          rw [hpt] at h
          obtain ⟨w3, hout, _, _, htokeq⟩ :=
            openAuthPhase_out lg pw auth o
              ⟨⟨w.st.cliClosed, some t, w.st.accounts, w.st.login, w.st.password⟩,
                w.sem - 1⟩
          rw [h] at hout
          have hw : w2 = w3 := by
            injection hout
          intro _
          rw [hw, htokeq]
          rfl

theorem closeRun_InvTA (ct lo : Bool) (w : World) (hi : InvTA w) :
    ∀ w2, outWorld (closeRun ct lo w) = some w2 → InvTA w2 := by
  intro w2 h
  unfold closeRun at h
  split at h
  · split at h
    · simp only [outWorld, Option.some.injEq] at h
      subst h
      intro h2
      simp [resetSt] at h2
    · simp only [outWorld, Option.some.injEq] at h
      subst h
      exact hi
  · simp only [outWorld, Option.some.injEq] at h
    subst h
    exact hi

theorem step_InvTA {w w2 : World} (hs : Step w w2) (hi : InvTA w) : InvTA w2 := by
  cases hs with
  | check cv w =>
    exact checkSession_InvTA cv w.st hi
  | openS cv lg pw auth o w w2 hout =>
    exact openRun_InvTA lg pw auth o ⟨checkSession cv w.st, w.sem⟩
      (checkSession_InvTA cv w.st hi) w2 hout
  | closeS cv ct lo w w2 hout =>
    exact closeRun_InvTA ct lo ⟨checkSession cv w.st, w.sem⟩
      (checkSession_InvTA cv w.st hi) w2 hout

theorem reachable_InvTA (w : World) (h : Reachable w) : InvTA w := by
  obtain ⟨lg, pw, hrt⟩ := h
  induction hrt with
  | refl => intro h2; simp [initWorld] at h2
  | tail h1 h2 ih => exact step_InvTA h2 ih

def C5anonOracle : OpenOracle := ⟨some "T", true, []⟩

def C5w1 : World := ⟨⟨false, some "T", none, none, none⟩, 0⟩

def C5w2 : World := ⟨⟨true, some "T", none, none, none⟩, 1⟩

/-- C5 counterexample: open an anonymous session, then close() it.  The
close skips the reset (the session is not authorized), only the finally
block runs; the reachable result has a closed session (opened is false,
the transport connector is closed) while the token is still stored: the
claimed equivalence "token absent iff session closed" fails in a
reachable state. -/
theorem closed_session_with_token_reachable :
    Reachable C5w2 ∧ opened C5w2.st = false ∧ closedP C5w2.st = true ∧
    C5w2.st.token = some "T" := by
  refine ⟨⟨none, none, ?_⟩, rfl, rfl, rfl⟩
  have h1 : Step (initWorld none none) C5w1 :=
    Step.openS true none none false C5anonOracle (initWorld none none) C5w1 rfl
  have h2 : Step C5w1 C5w2 :=
    Step.closeS true true true C5w1 C5w2 rfl
  exact (Relation.ReflTransGen.single h1).tail h2

/-- C5 amended: in every reachable state, presence of bound accounts
implies presence of a token; and as long as the transport connector is
open, the claimed equivalences do hold: the token is absent exactly when
the session is not opened, and the accounts are absent exactly when it
is not authorized.  Once the transport is closed the session counts as
closed and unauthorized even though a stale token or account list may
remain stored (see the counterexample). -/
theorem session_state_invariant (w : World) (h : Reachable w) :
    (w.st.accounts.isSome = true → w.st.token.isSome = true) ∧
    (w.st.cliClosed = false →
      ((w.st.token = none ↔ opened w.st = false) ∧
       (w.st.accounts = none ↔ authorized w.st = false))) := by
  refine ⟨reachable_InvTA w h, ?_⟩
  intro hcc
  constructor
  · cases htk : w.st.token <;> simp [opened, closedP, hcc, htk]
  · cases hac : w.st.accounts <;> simp [authorized, closedP, hcc, hac]

/-- C5 witness: the amended theorem at the initial state. -/
theorem session_state_invariant_witness :
    ((initWorld none none).st.accounts.isSome = true →
      (initWorld none none).st.token.isSome = true) ∧
    ((initWorld none none).st.cliClosed = false →
      (((initWorld none none).st.token = none ↔
          opened (initWorld none none).st = false) ∧
       ((initWorld none none).st.accounts = none ↔
          authorized (initWorld none none).st = false))) :=
  session_state_invariant (initWorld none none)
    ⟨none, none, Relation.ReflTransGen.refl⟩

/-! ## C9 and C10: year_accruals

Facts about the insertion-ordered dict primitives used by the row loop. -/

def keysD (db : List (Int × Accrual)) : List Int := db.map Prod.fst

theorem lookupD_append (l1 l2 : List (Int × Accrual)) (d : Int) :
    lookupD (l1 ++ l2) d =
      match lookupD l1 d with
      | some a => some a
      | none => lookupD l2 d := by
  induction l1 with
  | nil => simp [lookupD]
  | cons kv rest ih =>
    rcases kv with ⟨k, a⟩
    by_cases hk : k = d
    · simp [lookupD, hk]
    · simp [lookupD, hk, ih]

theorem lookupD_updateD_self (db : List (Int × Accrual)) (d : Int)
    (f : Accrual → Accrual) :
    lookupD (updateD db d f) d = (lookupD db d).map f := by
  induction db with
  | nil => rfl
  | cons kv rest ih =>
    rcases kv with ⟨k, a⟩
    by_cases hk : k = d
    · subst hk
      simp only [updateD, List.map_cons, if_pos rfl]
      simp [lookupD]
    · simp only [updateD, List.map_cons, if_neg hk]
      simp only [lookupD, if_neg hk]
      simpa [updateD] using ih

theorem lookupD_updateD_other (db : List (Int × Accrual)) (d d2 : Int)
    (f : Accrual → Accrual) (h : d2 ≠ d) :
    lookupD (updateD db d f) d2 = lookupD db d2 := by
  induction db with
  | nil => rfl
  | cons kv rest ih =>
    rcases kv with ⟨k, a⟩
    by_cases hk : k = d
    · subst hk
      simp only [updateD, List.map_cons, if_pos rfl]
      simp only [lookupD, if_neg (Ne.symm h)]
      simpa [updateD] using ih
    · by_cases hk2 : k = d2
      · subst hk2
        simp only [updateD, List.map_cons, if_neg hk]
        simp [lookupD]
      · simp only [updateD, List.map_cons, if_neg hk]
        simp only [lookupD, if_neg hk2]
        simpa [updateD] using ih

theorem lookupD_isSome_iff (db : List (Int × Accrual)) (d : Int) :
    (lookupD db d).isSome = true ↔ d ∈ keysD db := by
  induction db with
  | nil => simp [lookupD, keysD]
  | cons kv rest ih =>
    rcases kv with ⟨k, a⟩
    by_cases hk : k = d
    · subst hk
      simp [lookupD, keysD]
    · simp only [lookupD, if_neg hk]
      rw [ih]
      simp only [keysD, List.map_cons, List.mem_cons]
      constructor
      · intro hm
        exact Or.inr hm
      · rintro (hm | hm)
        · exact absurd hm.symm hk
        · exact hm

theorem lookupD_setdefaultD_self (db : List (Int × Accrual)) (d : Int) (a : Accrual) :
    lookupD (setdefaultD db d a) d = some ((lookupD db d).getD a) := by
  unfold setdefaultD
  cases h : lookupD db d with
  | some x => simp [h]
  | none => simp [h, lookupD_append, lookupD]

theorem lookupD_setdefaultD_other (db : List (Int × Accrual)) (d : Int) (a : Accrual)
    (d2 : Int) (h : d2 ≠ d) :
    lookupD (setdefaultD db d a) d2 = lookupD db d2 := by
  unfold setdefaultD
  cases hx : lookupD db d with
  | some x => simp [hx]
  | none =>
    simp only [hx, Option.isSome_none, Bool.false_eq_true, if_false]
    rw [lookupD_append]
    cases hy : lookupD db d2 with
    | some y => simp [hy]
    | none => simp [hy, lookupD, Ne.symm h]

theorem keysD_updateD (db : List (Int × Accrual)) (d : Int) (f : Accrual → Accrual) :
    keysD (updateD db d f) = keysD db := by
  unfold keysD updateD
  rw [List.map_map]
  apply List.map_congr_left
  intro kv _
  by_cases hk : kv.1 = d <;> simp [hk]

theorem keysD_setdefaultD (db : List (Int × Accrual)) (d : Int) (a : Accrual) :
    keysD (setdefaultD db d a) = insKey (keysD db) d := by
  unfold setdefaultD insKey
  by_cases h : (lookupD db d).isSome = true
  · rw [if_pos h, if_pos ((lookupD_isSome_iff db d).mp h)]
  · rw [if_neg h, if_neg (fun hm => h ((lookupD_isSome_iff db d).mpr hm))]
    simp [keysD]

theorem mem_of_lookupD (db : List (Int × Accrual)) (d : Int) (a : Accrual)
    (h : lookupD db d = some a) : (d, a) ∈ db := by
  induction db with
  | nil => simp [lookupD] at h
  | cons kv rest ih =>
    rcases kv with ⟨k, b⟩
    by_cases hk : k = d
    · subst hk
      simp [lookupD] at h
      subst h
      exact List.mem_cons_self _ _
    · simp only [lookupD, if_neg hk] at h
      exact List.mem_cons_of_mem _ (ih h)

theorem lookupD_of_mem (db : List (Int × Accrual)) (d : Int) (a : Accrual)
    (hnd : (keysD db).Nodup) (h : (d, a) ∈ db) :
    lookupD db d = some a := by
  induction db with
  | nil => simp at h
  | cons kv rest ih =>
    rcases kv with ⟨k, b⟩
    have hnd2 : k ∉ List.map Prod.fst rest ∧ (List.map Prod.fst rest).Nodup := by
      simpa [keysD, List.nodup_cons] using hnd
    simp only [List.mem_cons] at h
    rcases h with h | h
    · rw [Prod.ext_iff] at h
      obtain ⟨h1, h2⟩ := h
      simp only at h1 h2
      subst h1 h2
      simp [lookupD]
    · have hk : k ≠ d := by
        intro hkd
        subst hkd
        exact hnd2.1 (List.mem_map_of_mem Prod.fst h)
      simp only [lookupD, if_neg hk]
      exact ih hnd2.2 h

/-- The state transformation of one valid row of the year_accruals loop:
setdefault then the discriminator match. -/
def applyRowDb (account : Nat) (db : List (Int × Accrual)) (r : YRow) :
    List (Int × Accrual) :=
  updateD (setdefaultD db r.date (initAccrual account r)) r.date (fun a => applyRow a r)

/-- The year_accruals row loop restricted to valid rows, with no limit. -/
def yearLoopOk (account : Nat) : List (Int × Accrual) → List YRow → List (Int × Accrual)
  | db, [] => db
  | db, r :: rest => yearLoopOk account (applyRowDb account db r) rest

theorem applyRow_eq_bill (r : YRow) (h : r.tag = "общая") :
    (fun a => applyRow a r) = fun a => { a with bill_id := some r.docId } := by
  funext a
  unfold applyRow
  rw [if_pos h]

theorem applyRow_eq_peni (r : YRow) (h : r.tag = "пени") :
    (fun a => applyRow a r) = fun a => { a with peni_id := some r.docId } := by
  funext a
  unfold applyRow
  rw [if_neg (by rw [h]; decide), if_pos h]

theorem yearLoop_eq_yearLoopOk (account : Nat) :
    ∀ (rows : List YRow) (db),
      (∀ r ∈ rows, r.tag = "общая" ∨ r.tag = "пени") →
      yearLoop account none db rows = .ok (yearLoopOk account db rows) := by
  intro rows
  induction rows with
  | nil => intro db _; rfl
  | cons r rest ih =>
    intro db h
    have hr := h r (List.mem_cons_self r rest)
    have htail : ∀ x ∈ rest, x.tag = "общая" ∨ x.tag = "пени" :=
      fun x hx => h x (List.mem_cons_of_mem r hx)
    rcases hr with h1 | h1
    · simp only [yearLoop, brkCond, Bool.false_eq_true, if_false]
      rw [if_pos h1]
      simp only [yearLoopOk, applyRowDb, applyRow_eq_bill r h1]
      exact ih _ htail
    · simp only [yearLoop, brkCond, Bool.false_eq_true, if_false]
      rw [if_neg (by rw [h1]; decide), if_pos h1]
      simp only [yearLoopOk, applyRowDb, applyRow_eq_peni r h1]
      exact ih _ htail

theorem keysD_yearLoopOk (account : Nat) :
    ∀ (rows : List YRow) (db),
      keysD (yearLoopOk account db rows) =
        (rows.map (fun r => r.date)).foldl insKey (keysD db) := by
  intro rows
  induction rows with
  | nil => intro db; rfl
  | cons r rest ih =>
    intro db
    simp only [yearLoopOk, applyRowDb, List.map_cons, List.foldl_cons]
    rw [ih, keysD_updateD, keysD_setdefaultD]

theorem dates_yearLoopOk (account : Nat) :
    ∀ (rows : List YRow) (db),
      (∀ kv ∈ db, (kv : Int × Accrual).2.date = kv.1) →
      ∀ kv ∈ yearLoopOk account db rows, (kv : Int × Accrual).2.date = kv.1 := by
  intro rows
  induction rows with
  | nil => intro db h; exact h
  | cons r rest ih =>
    intro db h
    apply ih
    intro kv hkv
    unfold applyRowDb updateD at hkv
    obtain ⟨kv0, hkv0, rfl⟩ := List.mem_map.mp hkv
    have hkv0p : kv0.2.date = kv0.1 := by
      unfold setdefaultD at hkv0
      by_cases hs : (lookupD db r.date).isSome = true
      · rw [if_pos hs] at hkv0
        exact h kv0 hkv0
      · rw [if_neg hs] at hkv0
        rcases List.mem_append.mp hkv0 with hm | hm
        · exact h kv0 hm
        · simp only [List.mem_singleton] at hm
          rw [hm]
          rfl
    by_cases hk : kv0.1 = r.date
    · rw [if_pos hk]
      show (applyRow kv0.2 r).date = kv0.1
      unfold applyRow
      split_ifs <;> exact hkv0p
    · rw [if_neg hk]
      exact hkv0p

theorem lookupD_yearLoopOk (account : Nat) :
    ∀ (rows : List YRow) (db) (d : Int),
      lookupD (yearLoopOk account db rows) d =
        match lookupD db d, rows.filter (fun x => x.date == d) with
        | some x, l => some (l.foldl applyRow x)
        | none, [] => none
        | none, r :: rs =>
            some (rs.foldl applyRow (applyRow (initAccrual account r) r)) := by
  intro rows
  induction rows with
  | nil =>
    intro db d
    cases h : lookupD db d <;> simp [yearLoopOk, h]
  | cons r rest ih =>
    intro db d
    simp only [yearLoopOk]
    rw [ih]
    by_cases hd : r.date = d
    · subst hd
      have hfil : (r :: rest).filter (fun x => x.date == r.date) =
          r :: rest.filter (fun x => x.date == r.date) := by
        simp [List.filter_cons]
      rw [hfil]
      unfold applyRowDb
      rw [lookupD_updateD_self, lookupD_setdefaultD_self]
      cases hx : lookupD db r.date with
      | none => simp
      | some x => simp [List.foldl_cons]
    · have hfil : (r :: rest).filter (fun x => x.date == d) =
          rest.filter (fun x => x.date == d) := by
        simp [List.filter_cons, hd]
      rw [hfil]
      unfold applyRowDb
      rw [lookupD_updateD_other _ _ _ _ (Ne.symm hd),
        lookupD_setdefaultD_other _ _ _ _ (Ne.symm hd)]

theorem yearLoop_none_isOk (account : Nat) :
    ∀ (rows : List YRow) (db),
      exceptIsOk (yearLoop account none db rows) = true ↔
        ∀ r ∈ rows, r.tag = "общая" ∨ r.tag = "пени" := by
  intro rows
  induction rows with
  | nil => intro db; simp [yearLoop, exceptIsOk]
  | cons r rest ih =>
    intro db
    by_cases h1 : r.tag = "общая"
    · simp [yearLoop, brkCond, h1, ih, List.forall_mem_cons]
    · by_cases h2 : r.tag = "пени"
      · simp [yearLoop, brkCond, h1, h2, ih, List.forall_mem_cons]
      · simp [yearLoop, brkCond, h1, h2, exceptIsOk, List.forall_mem_cons]

/-- C9: with no limit, year_accruals succeeds exactly when every row
discriminator is "общая" or "пени" (any other value raises
ParsingError); on success, rows sharing a date merge into a single
record - the result has one record per distinct date in first-seen
order, and the record of a date equals the record created from the
first row of that date (summa and peni from that row, ids absent) with
the id assignments of all rows of that date folded over it, "общая"
rows setting bill_id and "пени" rows setting peni_id. -/
theorem year_accruals_grouping (account : Nat) (rows : List YRow) :
    (exceptIsOk (year_accruals account none rows) = true ↔
      ∀ r ∈ rows, r.tag = "общая" ∨ r.tag = "пени") ∧
    ((∀ r ∈ rows, r.tag = "общая" ∨ r.tag = "пени") →
      ∃ res, year_accruals account none rows = .ok res ∧
        res.map (fun a => a.date) = dictFromKeys (rows.map (fun r => r.date)) ∧
        (res.map (fun a => a.date)).Nodup ∧
        (∀ (d : Int) (r : YRow) (rs : List YRow),
          rows.filter (fun x => x.date == d) = r :: rs →
          ∃ a0, a0 ∈ res ∧
            a0 = rs.foldl applyRow (applyRow (initAccrual account r) r) ∧
            ∀ a1 ∈ res, a1.date = d → a1 = a0)) := by
  constructor
  · have hmap : ∀ (e : Except Unit (List (Int × Accrual))),
        exceptIsOk (e.map (fun db => db.map Prod.snd)) = exceptIsOk e := by
      intro e
      cases e <;> rfl
    unfold year_accruals
    rw [hmap]
    exact yearLoop_none_isOk account rows []
  · intro hvalid
    have hok := yearLoop_eq_yearLoopOk account rows [] hvalid
    have hdates := dates_yearLoopOk account rows [] (by simp)
    have hkeys := keysD_yearLoopOk account rows []
    have hmapdate :
        ((yearLoopOk account [] rows).map Prod.snd).map (fun a => a.date) =
          dictFromKeys (rows.map (fun r => r.date)) := by
      rw [List.map_map]
      have hstep :
          (yearLoopOk account [] rows).map ((fun a => a.date) ∘ Prod.snd) =
            keysD (yearLoopOk account [] rows) :=
        List.map_congr_left fun kv hkv => hdates kv hkv
      rw [hstep, hkeys]
      rfl
    have hnodup : (keysD (yearLoopOk account [] rows)).Nodup := by
      rw [hkeys]
      exact nodup_foldl_insKey _ _ List.nodup_nil
    refine ⟨(yearLoopOk account [] rows).map Prod.snd, ?_, hmapdate, ?_, ?_⟩
    · unfold year_accruals
      rw [hok]
      rfl
    · rw [hmapdate]
      exact nodup_dictFromKeys _
    · intro d r rs hfil
      have hlk := lookupD_yearLoopOk account rows [] d
      rw [hfil] at hlk
      simp only [lookupD] at hlk
      refine ⟨rs.foldl applyRow (applyRow (initAccrual account r) r),
        List.mem_map_of_mem Prod.snd (mem_of_lookupD _ _ _ hlk), rfl, ?_⟩
      intro a1 ha1 hdate
      obtain ⟨kv, hkv, rfl⟩ := List.mem_map.mp ha1
      have hkey : kv.1 = d := by
        rw [← hdates kv hkv]
        exact hdate
      have hlk2 : lookupD (yearLoopOk account [] rows) kv.1 = some kv.2 :=
        lookupD_of_mem _ _ _ hnodup hkv
      rw [hkey, hlk] at hlk2
      injection hlk2 with hlk2
      exact hlk2.symm

def C9rows : List YRow := [⟨1, 5, 1, "общая", 10⟩, ⟨1, 5, 1, "пени", 20⟩]

/-- C9 witness: two rows sharing one date, one tagged "общая" with id 10
and one tagged "пени" with id 20. -/
theorem year_accruals_grouping_witness :
    (exceptIsOk (year_accruals 7 none C9rows) = true ↔
      ∀ r ∈ C9rows, r.tag = "общая" ∨ r.tag = "пени") ∧
    (∃ res, year_accruals 7 none C9rows = .ok res ∧
      res.map (fun a => a.date) = dictFromKeys (C9rows.map (fun r => r.date)) ∧
      (res.map (fun a => a.date)).Nodup ∧
      (∀ (d : Int) (r : YRow) (rs : List YRow),
        C9rows.filter (fun x => x.date == d) = r :: rs →
        ∃ a0, a0 ∈ res ∧
          a0 = rs.foldl applyRow (applyRow (initAccrual 7 r) r) ∧
          ∀ a1 ∈ res, a1.date = d → a1 = a0)) :=
  ⟨(year_accruals_grouping 7 C9rows).1,
   (year_accruals_grouping 7 C9rows).2
     (by
       intro r hr
       simp only [C9rows, List.mem_cons, List.not_mem_nil, or_false] at hr
       rcases hr with rfl | rfl
       · left
         rfl
       · right
         rfl)⟩

theorem length_updateD (db : List (Int × Accrual)) (d : Int) (f : Accrual → Accrual) :
    (updateD db d f).length = db.length := by
  simp [updateD]

theorem length_setdefaultD (db : List (Int × Accrual)) (d : Int) (a : Accrual) :
    (setdefaultD db d a).length =
      if (lookupD db d).isSome then db.length else db.length + 1 := by
  unfold setdefaultD
  by_cases h : (lookupD db d).isSome = true <;> simp [h]

theorem yearLoop_limit_length (account n : Nat) (hn : n ≠ 0) :
    ∀ (rows : List YRow) (db db2 : List (Int × Accrual)), db.length ≤ n →
      yearLoop account (some n) db rows = .ok db2 → db2.length ≤ n := by
  intro rows
  induction rows with
  | nil =>
    intro db db2 hlen h
    simp only [yearLoop] at h
    injection h with h
    exact h ▸ hlen
  | cons r rest ih =>
    intro db db2 hlen h
    simp only [yearLoop] at h
    by_cases hbrk : brkCond (some n) db r.date = true
    · rw [if_pos hbrk] at h
      injection h with h
      exact h ▸ hlen
    · rw [if_neg hbrk] at h
      have hsd : (setdefaultD db r.date (initAccrual account r)).length ≤ n := by
        rw [length_setdefaultD]
        by_cases hs : (lookupD db r.date).isSome = true
        · simpa [hs] using hlen
        · have hnone : lookupD db r.date = none :=
            Option.not_isSome_iff_eq_none.mp (by simpa using hs)
          have hne : n ≠ db.length := by
            intro heq
            apply hbrk
            rw [brkCond_some, hnone]
            have b1 : (n != 0) = true := by
              simp only [bne_iff_ne, ne_eq]
              exact hn
            have b2 : (n == db.length) = true := by
              simp only [beq_iff_eq]
              exact heq
            rw [b1, b2]
            rfl
          rw [hnone]
          simp only [Option.isSome_none, Bool.false_eq_true, if_false]
          omega
      by_cases h1 : r.tag = "общая"
      · rw [if_pos h1] at h
        exact ih _ _ (by rw [length_updateD]; exact hsd) h
      · by_cases h2 : r.tag = "пени"
        · rw [if_neg h1, if_pos h2] at h
          exact ih _ _ (by rw [length_updateD]; exact hsd) h
        · rw [if_neg h1, if_neg h2] at h
          exact Except.noConfusion h

theorem yearLoop_limit_split (account n : Nat) :
    ∀ (rows : List YRow) (db), ∃ p q, rows = p ++ q ∧
      yearLoop account (some n) db rows = yearLoop account none db p := by
  intro rows
  induction rows with
  | nil => intro db; exact ⟨[], [], rfl, rfl⟩
  | cons r rest ih =>
    intro db
    by_cases hbrk : brkCond (some n) db r.date = true
    · refine ⟨[], r :: rest, rfl, ?_⟩
      simp only [yearLoop]
      rw [if_pos hbrk]
    · by_cases h1 : r.tag = "общая"
      · obtain ⟨p, q, hpq, heq⟩ :=
          ih (updateD (setdefaultD db r.date (initAccrual account r)) r.date
            (fun a => { a with bill_id := some r.docId }))
        refine ⟨r :: p, q, by rw [hpq]; rfl, ?_⟩
        simp only [yearLoop, brkCond_none, Bool.false_eq_true, if_false]
        rw [if_neg hbrk, if_pos h1, if_pos h1]
        exact heq
      · by_cases h2 : r.tag = "пени"
        · obtain ⟨p, q, hpq, heq⟩ :=
            ih (updateD (setdefaultD db r.date (initAccrual account r)) r.date
              (fun a => { a with peni_id := some r.docId }))
          refine ⟨r :: p, q, by rw [hpq]; rfl, ?_⟩
          simp only [yearLoop, brkCond_none, Bool.false_eq_true, if_false]
          rw [if_neg hbrk, if_neg h1, if_pos h2, if_neg h1, if_pos h2]
          exact heq
        · refine ⟨[r], rest, rfl, ?_⟩
          simp only [yearLoop, brkCond_none, Bool.false_eq_true, if_false]
          rw [if_neg hbrk, if_neg h1, if_neg h2, if_neg h1, if_neg h2]

theorem yearLoop_zero (account : Nat) :
    ∀ (rows : List YRow) (db),
      yearLoop account (some 0) db rows = yearLoop account none db rows := by
  intro rows
  induction rows with
  | nil => intro db; rfl
  | cons r rest ih =>
    intro db
    simp only [yearLoop, brkCond, bne_self_eq_false, Bool.false_and,
      Bool.false_eq_true, if_false]
    by_cases h1 : r.tag = "общая"
    · rw [if_pos h1, if_pos h1]
      exact ih _
    · by_cases h2 : r.tag = "пени"
      · rw [if_neg h1, if_pos h2, if_neg h1, if_pos h2]
        exact ih _
      · rw [if_neg h1, if_neg h2, if_neg h1, if_neg h2]

def C10rows : List YRow :=
  [⟨1, 5, 0, "общая", 10⟩, ⟨2, 7, 0, "общая", 20⟩, ⟨1, 5, 0, "пени", 30⟩]

/-- C10 counterexample: with limit 1, the first row retains date 1; at
the second row (new date 2) the loop BREAKS rather than skipping just
that row, so the third row - which belongs to the already-retained date
1 and carries the penalty document id 30 - is never applied: the
resulting record keeps peni_id = none, contradicting "rows belonging to
already-retained dates are still applied to their records". -/
theorem year_accruals_limit_skips_retained_date_row :
    year_accruals 7 (some 1) C10rows =
      .ok [{ account := 7, date := 1, summa := 5, peni := 0,
             bill_id := some 10, peni_id := none }] ∧
    (⟨1, 5, 0, "пени", 30⟩ : YRow) ∈ C10rows := by
  constructor
  · rfl
  · simp [C10rows]

/-- C10 amended: with a positive limit n the result retains at most n
distinct dates, and the with-limit run equals the no-limit run on some
prefix of the rows: once the limit is reached and a row starts a new
date, iteration stops entirely, so NO later row is applied - not even
rows of already-retained dates.  A limit of 0 (falsy in python) is no
limit at all. -/
theorem year_accruals_limit_behavior (account n : Nat) (rows : List YRow) :
    (0 < n → ∀ res, year_accruals account (some n) rows = .ok res →
      res.length ≤ n) ∧
    (∃ p q, rows = p ++ q ∧
      year_accruals account (some n) rows = year_accruals account none p) ∧
    year_accruals account (some 0) rows = year_accruals account none rows := by
  refine ⟨?_, ?_, ?_⟩
  · intro hn res hres
    unfold year_accruals at hres
    cases hdb : yearLoop account (some n) [] rows with
    | error e =>
      rw [hdb] at hres
      exact Except.noConfusion hres
    | ok db2 =>
      rw [hdb] at hres
      simp only [Except.map] at hres
      injection hres with hres
      rw [← hres, List.length_map]
      exact yearLoop_limit_length account n (Nat.pos_iff_ne_zero.mp hn) rows [] db2
        (by simp) hdb
  · obtain ⟨p, q, hpq, heq⟩ := yearLoop_limit_split account n rows []
    refine ⟨p, q, hpq, ?_⟩
    unfold year_accruals
    rw [heq]
  · unfold year_accruals
    rw [yearLoop_zero]

/-- C10 witness: the amended theorem at the counterexample input. -/
theorem year_accruals_limit_behavior_witness :
    ([{ account := 7, date := 1, summa := 5, peni := 0,
        bill_id := some 10, peni_id := none }] : List Accrual).length ≤ 1 ∧
    (∃ p q, C10rows = p ++ q ∧
      year_accruals 7 (some 1) C10rows = year_accruals 7 none p) ∧
    year_accruals 7 (some 0) C10rows = year_accruals 7 none C10rows :=
  ⟨(year_accruals_limit_behavior 7 1 C10rows).1 (by decide)
      [{ account := 7, date := 1, summa := 5, peni := 0,
         bill_id := some 10, peni_id := none }] rfl,
   (year_accruals_limit_behavior 7 1 C10rows).2.1,
   (year_accruals_limit_behavior 7 0 C10rows).2.2⟩

end Erkc
